import Mathlib

/-!
Verification of the log pagination-and-windowing engine of
`sageinspector` (`src/sageinspector/lib/logs.py` and
`src/sageinspector/util/__init__.py`), as a shallow embedding in Lean.

Python dictionaries holding dynamically typed field values are embedded
with `PyVal`; keyword-argument dictionaries with association lists;
generators are embedded as fuel-indexed list producers (the fuel bounds
how many loop iterations are unrolled, and a Boolean records whether the
loop reached its `break`).
-/

namespace SageInspector

/-- A dynamically typed Python value, as far as the log records need:
an integer or a string.  Used for the fields whose runtime type the
code chooses (`timestamp`, `ingestion_time`, `event_id`). -/
inductive PyVal where
  | int (n : Int)
  | str (s : String)
deriving DecidableEq, Repr

/-- `LogEvent` of `logs.py`: one record of `get_log_events`. -/
structure LogEvent where
  message : String
  timestamp : Int
  ingestion_time : Int
deriving DecidableEq, Repr

/-- `LogFilterEvent` of `logs.py`: one record of `filter_log_events`
(or a synthetic record of `TextFilter`).  `timestamp`, `ingestion_time`
and `event_id` keep their dynamic Python type. -/
structure LogFilterEvent where
  message : String
  timestamp : PyVal
  ingestion_time : PyVal
  stream_name : String
  event_id : PyVal
deriving DecidableEq, Repr

/-- One response of the stream backend (`get_log_events`): the events of
the page and the `nextForwardToken`.  The token type is kept abstract;
the code only compares tokens for equality. -/
structure StreamResp (τ : Type) where
  events : List LogEvent
  nextForwardToken : τ
deriving DecidableEq, Repr

/-- One response of the filtered-search backend (`filter_log_events`):
the events of the page and the optional `nextToken` (absent when the
response carries no `"nextToken"` key, i.e. `response.get` yields
`None`). -/
structure FilterResp where
  events : List LogFilterEvent
  nextToken : Option String
deriving DecidableEq, Repr

/-- Python truthiness test `not token` on an optional string: true for
`None` and for the empty string. -/
def pyFalsy : Option String → Bool
  | none => true
  | some s => s.isEmpty

/-- The loop of `LogStream.iter_log_events`: starting from `token`,
fetch a response, yield its page (`some events`), and compare the
submitted token with the returned `nextForwardToken`; on equality break
(non-`forever`) or yield the idle marker `none` and continue with the
returned token (`forever`).  `fuel` bounds the number of unrolled loop
iterations; the Boolean is `true` when the loop hit its `break` within
`fuel` iterations. -/
def streamRun {τ : Type} [DecidableEq τ] (fetch : Option τ → StreamResp τ)
    (forever : Bool) : Option τ → Nat → List (Option (List LogEvent)) × Bool
  | _, 0 => ([], false)
  | token, fuel + 1 =>
    let r := fetch token
    if token = some r.nextForwardToken then
      if forever then
        let rest := streamRun fetch forever (some r.nextForwardToken) fuel
        (some r.events :: none :: rest.1, rest.2)
      else
        ([some r.events], true)
    else
      let rest := streamRun fetch forever (some r.nextForwardToken) fuel
      (some r.events :: rest.1, rest.2)

/-- The number of backend fetches `streamRun` performs with the given
fuel. -/
def streamRunCount {τ : Type} [DecidableEq τ] (fetch : Option τ → StreamResp τ)
    (forever : Bool) : Option τ → Nat → Nat
  | _, 0 => 0
  | token, fuel + 1 =>
    let r := fetch token
    if token = some r.nextForwardToken then
      if forever then streamRunCount fetch forever (some r.nextForwardToken) fuel + 1
      else 1
    else streamRunCount fetch forever (some r.nextForwardToken) fuel + 1

/-- The sequence of continuation tokens submitted by the stream loop
when started from `t`: the `k`-th fetch submits `streamTokensFrom fetch
t k` (ignoring the `break`, which cuts the sequence short). -/
def streamTokensFrom {τ : Type} (fetch : Option τ → StreamResp τ)
    (t : Option τ) : Nat → Option τ
  | 0 => t
  | k + 1 => some (fetch (streamTokensFrom fetch t k)).nextForwardToken

/-- The stream loop's completion signal at step `k`: the token submitted
to the `k`-th fetch equals the token that fetch returns. -/
def streamStopsFrom {τ : Type} [DecidableEq τ] (fetch : Option τ → StreamResp τ)
    (t : Option τ) (k : Nat) : Bool :=
  streamTokensFrom fetch t k
    = some (fetch (streamTokensFrom fetch t k)).nextForwardToken

/-- The loop of `LogStreamFilter.iter_log_events` (after the selector
assertion): fetch a response, read `nextToken`, yield the page, and
break when the token is falsy; otherwise continue with it.  Returns the
pages, whether the loop hit its `break` within `fuel` iterations, and
the number of fetches performed. -/
def filterLoop (fetch : Option String → FilterResp) :
    Option String → Nat → List (List LogFilterEvent) × Bool × Nat
  | _, 0 => ([], false, 0)
  | token, fuel + 1 =>
    let r := fetch token
    if pyFalsy r.nextToken then
      ([r.events], true, 1)
    else
      let rest := filterLoop fetch r.nextToken fuel
      (r.events :: rest.1, rest.2.1, rest.2.2 + 1)

/-- The sequence of continuation tokens submitted by the filter loop
when started from `t` (ignoring the `break`). -/
def filterTokensFrom (fetch : Option String → FilterResp)
    (t : Option String) : Nat → Option String
  | 0 => t
  | k + 1 => (fetch (filterTokensFrom fetch t k)).nextToken

/-- Modelled from the spec: the live stream backend (`get_log_events`,
which is not part of this repository) serves a fixed sequence of pages;
the submitted continuation token selects a page, the returned
`nextForwardToken` selects the following one, and once the pages are
exhausted every further fetch returns an empty page together with the
submitted token itself (the spec's "token equal to the one just
submitted implies no next page").  Tokens are embedded as page indices;
the code treats them as opaque and only compares them for equality. -/
def pagedFetch (pages : List (List LogEvent)) : Option Nat → StreamResp Nat :=
  fun t =>
    let i := t.getD 0
    if i < pages.length then ⟨pages.getD i [], i + 1⟩ else ⟨[], i⟩

/-- `concat` over the pages produced by a stream iteration (`toolz.concat`
applied to `iter_log_events`); in non-`forever` mode no idle marker is
ever produced, and a marker contributes nothing. -/
def streamConcat (pages : List (List LogEvent)) (fuel : Nat) : List LogEvent :=
  ((streamRun (pagedFetch pages) false none fuel).1).flatMap fun p => p.getD []

/-- `LogStream.head`: `assert n <= 10_000`, then concatenate the pages of
a top-down iteration and keep the first `n` events.  Returns the result
of the call (`Except.error` embeds the failed assertion) together with
the number of backend fetches the call performed. -/
def LogStream.head (pages : List (List LogEvent)) (n fuel : Nat) :
    Except Unit (List LogEvent) × Nat :=
  if n ≤ 10000 then
    (Except.ok ((streamConcat pages fuel).take n),
      streamRunCount (pagedFetch pages) false none fuel)
  else
    (Except.error (), 0)

/-- `LogStream.tail`: `assert n <= 10_000`, then concatenate the pages of
a bottom-up iteration and keep the first `n` events.  `pages` are the
pages the backend serves for the backward walk. -/
def LogStream.tail (pages : List (List LogEvent)) (n fuel : Nat) :
    Except Unit (List LogEvent) × Nat :=
  if n ≤ 10000 then
    (Except.ok ((streamConcat pages fuel).take n),
      streamRunCount (pagedFetch pages) false none fuel)
  else
    (Except.error (), 0)

/-- The last `n` elements of a list (the most recent `n` events of a
chronologically ascending stream). -/
def lastN {α : Type} (n : Nat) (l : List α) : List α :=
  l.drop (l.length - n)

/-- A small concrete event, used by the witnesses. -/
def evAt (k : Int) : LogEvent :=
  ⟨toString k, k, k⟩

/-- The spec scenario's stream: 15 events, oldest first. -/
def evs15 : List LogEvent :=
  [evAt 1, evAt 2, evAt 3, evAt 4, evAt 5, evAt 6, evAt 7, evAt 8, evAt 9,
    evAt 10, evAt 11, evAt 12, evAt 13, evAt 14, evAt 15]

/-- The backward window for `tail(7)` over `evs15`, as the backend
serves it: the tail of backend page 2, then backend page 3. -/
def tail7Pages : List (List LogEvent) :=
  [[evAt 9, evAt 10], [evAt 11, evAt 12, evAt 13, evAt 14, evAt 15]]

/-- A regular expression of the fragment the client-side `re` calls of
`logs.py` use: empty, literal character, any character (`.`), catenation,
alternation (`|`), repetition (`*`) and a capturing group. -/
inductive RE where
  | eps
  | ch (c : Char)
  | dot
  | cat (r s : RE)
  | alt (r s : RE)
  | star (r : RE)
  | grp (r : RE)
deriving DecidableEq, Repr

/-- Number of capturing groups of a regex, in Python's group order
(by opening parenthesis, a group before its subgroups). -/
def nGroups : RE → Nat
  | .eps => 0
  | .ch _ => 0
  | .dot => 0
  | .cat r s => nGroups r + nGroups s
  | .alt r s => nGroups r + nGroups s
  | .star r => nGroups r
  | .grp r => nGroups r + 1

/-- Captures of a (sub)regex none of whose groups participated. -/
def noneCaps (r : RE) : List (Option (List Char)) :=
  List.replicate (nGroups r) none

/-- One way a regex can match a prefix of the input: the consumed
prefix, the remaining input, and the capture of each group (`none` when
the group did not participate). -/
structure MRes where
  consumed : List Char
  rest : List Char
  caps : List (Option (List Char))
deriving DecidableEq, Repr

/-- Capture merge across `*` iterations: the later iteration wins
wherever it captured (Python keeps each group's last successful
capture). -/
def starCaps (c1 c2 : List (Option (List Char))) : List (Option (List Char)) :=
  List.zipWith (fun a b => match b with | some v => some v | none => a) c1 c2

/-- The greedy `*` loop: given the matcher `body` of the starred
subexpression (and the captures `nc` of a zero-iteration pass), produce
the matches of the repetition in priority order — iterations that
consume input first (greedily), the empty repetition last; an iteration
never matches the empty string. -/
def starLoop (body : List Char → List MRes)
    (nc : List (Option (List Char))) (s : List Char) : List MRes :=
  (((body s).filter fun m => m.rest.length < s.length).attach.flatMap
    fun m1 =>
      (starLoop body nc m1.1.rest).map fun m2 =>
        ⟨m1.1.consumed ++ m2.consumed, m2.rest, starCaps m1.1.caps m2.caps⟩)
    ++ [⟨[], s, nc⟩]
termination_by s.length
decreasing_by
  exact of_decide_eq_true ((List.mem_filter.mp m1.2).2)

/-- All matches of a regex against a prefix of `s`, in Python's
backtracking priority order (first alternative first, `*` greedy, a `*`
iteration never matching empty).  The head of this list is the match
Python's engine reports. -/
def mlist : RE → List Char → List MRes
  | .eps, s => [⟨[], s, []⟩]
  | .ch _, [] => []
  | .ch c, a :: s => if a = c then [⟨[a], s, []⟩] else []
  | .dot, [] => []
  | .dot, a :: s => if a = '\n' then [] else [⟨[a], s, []⟩]
  | .cat r t, s =>
    (mlist r s).flatMap fun m1 =>
      (mlist t m1.rest).map fun m2 =>
        ⟨m1.consumed ++ m2.consumed, m2.rest, m1.caps ++ m2.caps⟩
  | .alt r t, s =>
    ((mlist r s).map fun m => ⟨m.consumed, m.rest, m.caps ++ noneCaps t⟩)
      ++ ((mlist t s).map fun m => ⟨m.consumed, m.rest, noneCaps r ++ m.caps⟩)
  | .grp r, s =>
    (mlist r s).map fun m => ⟨m.consumed, m.rest, some m.consumed :: m.caps⟩
  | .star r, s =>
    starLoop (fun s2 => mlist r s2) (noneCaps r) s

/-- `re.match(regex, s)`: the first match of the backtracking search
anchored at position zero, or `none`. -/
def reMatch (r : RE) (s : String) : Option MRes :=
  (mlist r s.data).head?

/-- The successive matches of Python's unanchored scan over `s`
(`re.findall` / `re.finditer`): try an anchored match at the current
position; on success record it and resume after it (one position
further when it consumed nothing); on failure move one position
further. -/
def findallGo (r : RE) : Nat → List Char → List MRes
  | 0, _ => []
  | fuel + 1, s =>
    match (mlist r s).head? with
    | some m =>
      m :: (match s with
            | [] => []
            | c :: s2 =>
              if m.rest.length < (c :: s2).length then findallGo r fuel m.rest
              else findallGo r fuel s2)
    | none =>
      match s with
      | [] => []
      | _ :: s2 => findallGo r fuel s2

/-- The scan itself, with enough fuel to never run out: each step
either consumes at least one character or advances one position, so
`s.length + 1` steps always complete the scan. -/
def findallMs (r : RE) (s : List Char) : List MRes :=
  findallGo r (s.length + 1) s

/-- The first match of the unanchored scan: the anchored match at the
smallest position of `s` admitting one. -/
def scanFirstMs (r : RE) (s : List Char) : Option MRes :=
  ((List.range (s.length + 1)).filterMap fun p => (mlist r (s.drop p)).head?).head?

/-- A value `re.findall` returns for one match: a string (no group: the
whole match; one group: its capture, `""` when it did not participate)
or a tuple of the groups' captures. -/
inductive PyFindVal where
  | str (s : String)
  | tup (l : List String)
deriving DecidableEq, Repr

/-- The `re.findall` value of one scan match. -/
def findallVal (r : RE) (m : MRes) : PyFindVal :=
  if nGroups r = 0 then .str (String.mk m.consumed)
  else if nGroups r = 1 then .str (String.mk ((m.caps.headD none).getD []))
  else .tup (m.caps.map fun c => String.mk (c.getD []))

/-- `re.findall(regex, s)`. -/
def reFindall (r : RE) (s : String) : List PyFindVal :=
  (findallMs r s.data).map (findallVal r)

/-- Append a value to the bucket of key `k` in an insertion-ordered
grouping (the embedding of appending to `defaultdict(list)[k]`, whose
iteration order is key insertion order). -/
def addToGroups {α : Type} (gs : List (String × List α)) (k : String) (v : α) :
    List (String × List α) :=
  match gs with
  | [] => [(k, [v])]
  | (k2, vs) :: rest =>
    if k2 = k then (k2, vs ++ [v]) :: rest else (k2, vs) :: addToGroups rest k v

/-- Build the insertion-ordered grouping of a list of `(key, value)`
pairs, as the `for` loops over `defaultdict(list)` do. -/
def groupPairs {α : Type} (l : List (String × α)) : List (String × List α) :=
  l.foldl (fun gs p => addToGroups gs p.1 p.2) []

/-- The bucket of key `k` in a grouping (`[]` when absent): reading the
`defaultdict` at `k`. -/
def lookupGroup {α : Type} : List (String × List α) → String → List α
  | [], _ => []
  | (k2, vs) :: rest, k => if k2 = k then vs else lookupGroup rest k

/-- `LogStreamFilter.iter_match` / `TextFilter.iter_match` over a page
sequence: every event whose message has an anchored match, paired with
that match, in order. -/
def iter_match (rex : RE) (pages : List (List LogFilterEvent)) :
    List (MRes × LogFilterEvent) :=
  pages.flatMap fun page =>
    page.filterMap fun e => (reMatch rex e.message).map fun m => (m, e)

/-- `LogStreamFilter.match` / `TextFilter.match` over a page sequence:
group `match.group(0)` (the whole match) by the event's stream name. -/
def matchGroups (rex : RE) (pages : List (List LogFilterEvent)) :
    List (String × List String) :=
  groupPairs ((iter_match rex pages).map fun me =>
    (me.2.stream_name, String.mk me.1.consumed))

/-- `LogStreamFilter.iter_find` / `TextFilter.iter_find` over a page
sequence: every event whose message has at least one `findall` result,
paired with the full result list, in order. -/
def iter_find (rex : RE) (pages : List (List LogFilterEvent)) :
    List (List PyFindVal × LogFilterEvent) :=
  pages.flatMap fun page =>
    page.filterMap fun e =>
      match reFindall rex e.message with
      | [] => none
      | v :: vs => some (v :: vs, e)

/-- `LogStreamFilter.find` / `TextFilter.find` over a page sequence:
group `results[0]` (the first `findall` value) by stream name. -/
def findGroups (rex : RE) (pages : List (List LogFilterEvent)) :
    List (String × List PyFindVal) :=
  groupPairs ((iter_find rex pages).map fun re2 =>
    (re2.2.stream_name, re2.1.headD (.str "")))

/-- Python `str.splitlines` on the line endings the code can meet
(`\n`, `\r\n`, `\r`): accumulate the current line (reversed) and split;
no trailing empty line for a trailing terminator. -/
def splitlinesAux : List Char → List Char → List (List Char)
  | [], [] => []
  | [], cur => [cur.reverse]
  | '\r' :: '\n' :: rest, cur => cur.reverse :: splitlinesAux rest []
  | '\r' :: rest, cur => cur.reverse :: splitlinesAux rest []
  | '\n' :: rest, cur => cur.reverse :: splitlinesAux rest []
  | c :: rest, cur => splitlinesAux rest (c :: cur)

/-- `text.splitlines()`. -/
def pySplitlines (s : String) : List String :=
  (splitlinesAux s.data []).map String.mk

/-- A throwaway event record, used as the default of `getD`. -/
def dummyEvent : LogFilterEvent :=
  ⟨"", .int 0, .int 0, "", .str ""⟩

/-- `TextFilter.iter_log_events`: a single page with one synthetic
Filter Event per line of the wrapped text, in line order. -/
def TextFilter.iter_log_events (text : String) : List (List LogFilterEvent) :=
  [(pySplitlines text).enum.map fun p =>
    ⟨p.2, .int p.1, .int p.1, "", .str (toString p.1)⟩]

/-- `match.group(0)` rendered from a match, and the `match`-loop body of
`iter_match` as one step of a checked run (see `matchCheckedGo`). -/
def matchPagePairs (rex : RE) (page : List LogFilterEvent) :
    List (String × String) :=
  page.filterMap fun e =>
    (reMatch rex e.message).map fun m => (e.stream_name, String.mk m.consumed)

/-- `LogStreamFilter.match` with the regex given as its compilation
outcome (`Except.error` embeds an invalid regex).  Python compiles the
regex inside `re.match`, at the first event of each page: a page is
counted as fetched, then its events are examined; an invalid regex
raises at the first examined event.  The error value is the number of
pages fetched when the error surfaced. -/
def matchCheckedGo (rexc : Except Unit RE) :
    List (List LogFilterEvent) → Nat → List (String × String) →
      Except Nat (List (String × List String))
  | [], _, acc => .ok (groupPairs acc)
  | page :: rest, fetched, acc =>
    match page with
    | [] => matchCheckedGo rexc rest (fetched + 1) acc
    | e :: es =>
      match rexc with
      | .error _ => .error (fetched + 1)
      | .ok rex =>
        matchCheckedGo rexc rest (fetched + 1)
          (acc ++ matchPagePairs rex (e :: es))

/-- `LogStreamFilter.match(pattern, regex)` as a checked run. -/
def matchChecked (rexc : Except Unit RE) (pages : List (List LogFilterEvent)) :
    Except Nat (List (String × List String)) :=
  matchCheckedGo rexc pages 0 []

/-- `results[0]` pairs of one page for `iter_find` (see
`findCheckedGo`). -/
def findPagePairs (rex : RE) (page : List LogFilterEvent) :
    List (String × PyFindVal) :=
  page.filterMap fun e =>
    (reFindall rex e.message).head?.map fun v => (e.stream_name, v)

/-- `LogStreamFilter.find` with the regex given as its compilation
outcome; Python compiles the regex inside `re.findall`, at the first
event of each page. -/
def findCheckedGo (rexc : Except Unit RE) :
    List (List LogFilterEvent) → Nat → List (String × PyFindVal) →
      Except Nat (List (String × List PyFindVal))
  | [], _, acc => .ok (groupPairs acc)
  | page :: rest, fetched, acc =>
    match page with
    | [] => findCheckedGo rexc rest (fetched + 1) acc
    | e :: es =>
      match rexc with
      | .error _ => .error (fetched + 1)
      | .ok rex =>
        findCheckedGo rexc rest (fetched + 1)
          (acc ++ findPagePairs rex (e :: es))

/-- `LogStreamFilter.find(pattern, regex)` as a checked run. -/
def findChecked (rexc : Except Unit RE) (pages : List (List LogFilterEvent)) :
    Except Nat (List (String × List PyFindVal)) :=
  findCheckedGo rexc pages 0 []

/-- The index of the first page holding at least one event. -/
def firstNonEmptyIdx : List (List LogFilterEvent) → Option Nat
  | [] => none
  | [] :: rest => (firstNonEmptyIdx rest).map (· + 1)
  | (_ :: _) :: _ => some 0

/-- The regex `a(b)` of the C3 counterexample. -/
def rab : RE :=
  .cat (.ch 'a') (.grp (.ch 'b'))

/-- The value the claim says `match` stores: the text of the first
capture group, falling back to the whole match only when the regex has
no explicit group. -/
def c3ClaimedValue (rex : RE) (s : String) : Option String :=
  (reMatch rex s).map fun m =>
    if nGroups rex = 0 then String.mk m.consumed
    else String.mk ((m.caps.headD none).getD [])

/-- A keyword argument value of the embedded boto3 calls. -/
inductive Arg where
  | s (v : String)
  | sl (v : List String)
  | n (v : Nat)
deriving DecidableEq, Repr

/-- `ignore_nones` of `util/__init__.py`: drop every keyword argument
whose value is `None` before the call. -/
def ignore_nones (kwargs : List (String × Option Arg)) : List (String × Arg) :=
  kwargs.filterMap fun p => p.2.map fun v => (p.1, v)

/-- The keyword arguments of one `filter_log_events` call: the partial
application binds the group, scoping parameters, pattern and limit, the
loop adds `nextToken`, and `ignore_nones` removes the unset ones. -/
def filterCallKwargs (group : String) (pfx : Option String)
    (sn : Option (List String)) (pat : String) (limit : Option Nat)
    (token : Option String) : List (String × Arg) :=
  ignore_nones
    [("logGroupName", some (.s group)),
      ("logStreamNamePrefix", pfx.map .s),
      ("logStreamNames", sn.map .sl),
      ("filterPattern", some (.s pat)),
      ("limit", limit.map .n),
      ("nextToken", token.map .s)]

/-- Python `!=` between the optional stream-name list and the optional
prefix string: false only when both are `None` (a list never equals a
string). -/
def pyNeOpt (a : Option (List String)) (b : Option String) : Bool :=
  match a, b with
  | none, none => false
  | _, _ => true

/-- The assertion of `LogStreamFilter.iter_log_events`:
`stream_names is None or (prefix is None and stream_names != prefix)`
(Python precedence: `and` binds tighter than `or`). -/
def selectorCheck (sn : Option (List String)) (pfx : Option String) : Bool :=
  sn.isNone || (pfx.isNone && pyNeOpt sn pfx)

/-- `LogStreamFilter.iter_log_events`: run the selector assertion, then
the fetch loop, each fetch receiving the `ignore_nones`-filtered keyword
arguments.  Returns the assertion outcome with the loop's pages and
break flag, together with the number of fetches performed. -/
def LogStreamFilter.iter_log_events (fetch : List (String × Arg) → FilterResp)
    (group : String) (sn : Option (List String)) (pfx : Option String)
    (pat : String) (limit : Option Nat) (fuel : Nat) :
    Except Unit (List (List LogFilterEvent) × Bool) × Nat :=
  if selectorCheck sn pfx then
    let run := filterLoop
      (fun tok => fetch (filterCallKwargs group pfx sn pat limit tok)) none fuel
    (.ok (run.1, run.2.1), run.2.2)
  else
    (.error (), 0)

theorem streamRun_zero {τ : Type} [DecidableEq τ] (fetch : Option τ → StreamResp τ)
    (forever : Bool) (t : Option τ) : streamRun fetch forever t 0 = ([], false) := rfl

theorem streamRun_false_succ {τ : Type} [DecidableEq τ]
    (fetch : Option τ → StreamResp τ) (t : Option τ) (fuel : Nat) :
    streamRun fetch false t (fuel + 1)
      = if t = some (fetch t).nextForwardToken then
          ([some (fetch t).events], true)
        else
          (some (fetch t).events
              :: (streamRun fetch false (some (fetch t).nextForwardToken) fuel).1,
            (streamRun fetch false (some (fetch t).nextForwardToken) fuel).2) := rfl

theorem streamRun_true_succ {τ : Type} [DecidableEq τ]
    (fetch : Option τ → StreamResp τ) (t : Option τ) (fuel : Nat) :
    streamRun fetch true t (fuel + 1)
      = if t = some (fetch t).nextForwardToken then
          (some (fetch t).events :: none
              :: (streamRun fetch true (some (fetch t).nextForwardToken) fuel).1,
            (streamRun fetch true (some (fetch t).nextForwardToken) fuel).2)
        else
          (some (fetch t).events
              :: (streamRun fetch true (some (fetch t).nextForwardToken) fuel).1,
            (streamRun fetch true (some (fetch t).nextForwardToken) fuel).2) := rfl

theorem filterLoop_zero (fetch : Option String → FilterResp) (t : Option String) :
    filterLoop fetch t 0 = ([], false, 0) := rfl

theorem filterLoop_succ (fetch : Option String → FilterResp)
    (t : Option String) (fuel : Nat) :
    filterLoop fetch t (fuel + 1)
      = if pyFalsy (fetch t).nextToken then
          ([(fetch t).events], true, 1)
        else
          ((fetch t).events :: (filterLoop fetch (fetch t).nextToken fuel).1,
            (filterLoop fetch (fetch t).nextToken fuel).2.1,
            (filterLoop fetch (fetch t).nextToken fuel).2.2 + 1) := rfl

theorem streamTokensFrom_succ_shift {τ : Type} (fetch : Option τ → StreamResp τ)
    (t : Option τ) (k : Nat) :
    streamTokensFrom fetch t (k + 1)
      = streamTokensFrom fetch (some (fetch t).nextForwardToken) k := by
  induction k with
  | zero => rfl
  | succ k ih => rw [streamTokensFrom, ih, streamTokensFrom]

theorem streamStopsFrom_succ_shift {τ : Type} [DecidableEq τ]
    (fetch : Option τ → StreamResp τ) (t : Option τ) (k : Nat) :
    streamStopsFrom fetch t (k + 1)
      = streamStopsFrom fetch (some (fetch t).nextForwardToken) k := by
  unfold streamStopsFrom
  rw [streamTokensFrom_succ_shift]

theorem streamRun_false_break_iff {τ : Type} [DecidableEq τ]
    (fetch : Option τ → StreamResp τ) (t : Option τ) (fuel : Nat) :
    (streamRun fetch false t fuel).2 = true
      ↔ ∃ k, k < fuel ∧ streamStopsFrom fetch t k = true := by
  induction fuel generalizing t with
  | zero =>
    simp [streamRun_zero]
  | succ fuel ih =>
    by_cases h : t = some (fetch t).nextForwardToken
    · simp only [streamRun_false_succ, if_pos h]
      constructor
      · intro _
        exact ⟨0, Nat.succ_pos _, decide_eq_true h⟩
      · intro _; trivial
    · simp only [streamRun_false_succ, if_neg h]
      rw [ih]
      constructor
      · rintro ⟨k, hk, hs⟩
        refine ⟨k + 1, Nat.succ_lt_succ hk, ?_⟩
        rw [streamStopsFrom_succ_shift]; exact hs
      · rintro ⟨k, hk, hs⟩
        match k with
        | 0 =>
          exact absurd (of_decide_eq_true hs) h
        | k + 1 =>
          rw [streamStopsFrom_succ_shift] at hs
          exact ⟨k, Nat.lt_of_succ_lt_succ hk, hs⟩

theorem streamRun_forever_not_break {τ : Type} [DecidableEq τ]
    (fetch : Option τ → StreamResp τ) (t : Option τ) (fuel : Nat) :
    (streamRun fetch true t fuel).2 = false := by
  induction fuel generalizing t with
  | zero => rfl
  | succ fuel ih =>
    by_cases h : t = some (fetch t).nextForwardToken
    · simp only [streamRun_true_succ, if_pos h]
      exact ih _
    · simp only [streamRun_true_succ, if_neg h]
      exact ih _

theorem streamRun_forever_trace {τ : Type} [DecidableEq τ]
    (fetch : Option τ → StreamResp τ) (t : Option τ) (fuel : Nat) :
    (streamRun fetch true t fuel).1
      = (List.range fuel).flatMap (fun k =>
          some (fetch (streamTokensFrom fetch t k)).events
            :: (if streamStopsFrom fetch t k then [none] else [])) := by
  induction fuel generalizing t with
  | zero => rfl
  | succ fuel ih =>
    have hsh : ((List.range fuel).flatMap fun a =>
        some (fetch (streamTokensFrom fetch t (a + 1))).events
          :: (if streamStopsFrom fetch t (a + 1) then [none] else []))
        = ((List.range fuel).flatMap fun k =>
            some (fetch (streamTokensFrom fetch
                (some (fetch t).nextForwardToken) k)).events
              :: (if streamStopsFrom fetch
                  (some (fetch t).nextForwardToken) k then [none] else [])) := by
      apply List.flatMap_congr
      intro k _
      rw [streamTokensFrom_succ_shift, streamStopsFrom_succ_shift]
    rw [List.range_succ_eq_map]
    simp only [List.flatMap_cons, List.flatMap_map, Function.comp_apply,
      Nat.succ_eq_add_one]
    by_cases h : t = some (fetch t).nextForwardToken
    · rw [streamRun_true_succ, if_pos h, ih,
        show streamStopsFrom fetch t 0 = true from decide_eq_true h, hsh]
      rfl
    · rw [streamRun_true_succ, if_neg h, ih,
        show streamStopsFrom fetch t 0 = false from decide_eq_false h, hsh]
      rfl

theorem filterTokensFrom_succ_shift (fetch : Option String → FilterResp)
    (t : Option String) (k : Nat) :
    filterTokensFrom fetch t (k + 1)
      = filterTokensFrom fetch (fetch t).nextToken k := by
  induction k with
  | zero => rfl
  | succ k ih => rw [filterTokensFrom, ih, filterTokensFrom]

theorem filterLoop_break_iff (fetch : Option String → FilterResp)
    (t : Option String) (fuel : Nat) :
    (filterLoop fetch t fuel).2.1 = true
      ↔ ∃ k, k < fuel
          ∧ pyFalsy ((fetch (filterTokensFrom fetch t k)).nextToken) = true := by
  induction fuel generalizing t with
  | zero =>
    simp [filterLoop_zero]
  | succ fuel ih =>
    by_cases h : pyFalsy (fetch t).nextToken = true
    · simp only [filterLoop_succ, if_pos h]
      exact ⟨fun _ => ⟨0, Nat.succ_pos _, h⟩, fun _ => trivial⟩
    · simp only [filterLoop_succ, if_neg h]
      rw [ih]
      constructor
      · rintro ⟨k, hk, hs⟩
        refine ⟨k + 1, Nat.succ_lt_succ hk, ?_⟩
        rw [filterTokensFrom_succ_shift]; exact hs
      · rintro ⟨k, hk, hs⟩
        match k with
        | 0 => exact absurd hs h
        | k + 1 =>
          rw [filterTokensFrom_succ_shift] at hs
          exact ⟨k, Nat.lt_of_succ_lt_succ hk, hs⟩

/-- C1: a non-`forever` Stream Source iteration breaks within its fuel
iff some fetch's submitted token equals the returned token; a `forever`
iteration never breaks, its trace yields each fetched page followed by
the idle marker `none` exactly at the token-equality detections, and
after each detection the same token is resubmitted; a Filter Source
iteration breaks within its fuel iff some fetch returns a missing or
falsy token. -/
theorem c1_iteration_termination {τ : Type} [DecidableEq τ]
    (fetchS : Option τ → StreamResp τ) (fetchF : Option String → FilterResp)
    (fuel : Nat) :
    ((streamRun fetchS false none fuel).2 = true
        ↔ ∃ k, k < fuel ∧ streamStopsFrom fetchS none k = true)
    ∧ (streamRun fetchS true none fuel).2 = false
    ∧ (streamRun fetchS true none fuel).1
        = (List.range fuel).flatMap (fun k =>
            some (fetchS (streamTokensFrom fetchS none k)).events
              :: (if streamStopsFrom fetchS none k then [none] else []))
    ∧ (∀ k, streamStopsFrom fetchS none k = true →
        streamTokensFrom fetchS none (k + 1) = streamTokensFrom fetchS none k)
    ∧ ((filterLoop fetchF none fuel).2.1 = true
        ↔ ∃ k, k < fuel
            ∧ pyFalsy ((fetchF (filterTokensFrom fetchF none k)).nextToken)
                = true) := by
  refine ⟨streamRun_false_break_iff fetchS none fuel,
    streamRun_forever_not_break fetchS none fuel,
    streamRun_forever_trace fetchS none fuel, ?_,
    filterLoop_break_iff fetchF none fuel⟩
  intro k hk
  have hk' : streamTokensFrom fetchS none k
      = some (fetchS (streamTokensFrom fetchS none k)).nextForwardToken :=
    of_decide_eq_true hk
  rw [streamTokensFrom, ← hk']

theorem streamRun_paged_from (pages : List (List LogEvent)) (i fuel : Nat)
    (hi : i ≤ pages.length) (hf : pages.length - i + 1 ≤ fuel) :
    streamRun (pagedFetch pages) false (some i) fuel
      = ((pages.drop i).map some ++ [some []], true) := by
  induction fuel generalizing i with
  | zero => omega
  | succ fuel ih =>
    rw [streamRun_false_succ]
    by_cases hlt : i < pages.length
    · have hfetch : pagedFetch pages (some i) = ⟨pages.getD i [], i + 1⟩ := by
        simp [pagedFetch, hlt]
      rw [hfetch]
      have hne : ¬ (some i = some (i + 1)) := by simp
      rw [if_neg hne, ih (i + 1) hlt (by omega)]
      rw [List.drop_eq_getElem_cons hlt, List.getD_eq_getElem pages [] hlt]
      rfl
    · have hieq : i = pages.length := by omega
      have hfetch : pagedFetch pages (some i) = ⟨[], i⟩ := by
        simp [pagedFetch, hlt]
      rw [hfetch, if_pos rfl, hieq, List.drop_length]
      rfl

theorem flatMap_map_some_getD {α : Type} (l : List (List α)) :
    ((l.map some).flatMap fun p => p.getD []) = l.flatten := by
  induction l with
  | nil => rfl
  | cons a l ih => simp only [List.map_cons, List.flatMap_cons, ih,
      Option.getD_some, List.flatten_cons]

theorem streamConcat_paged (pages : List (List LogEvent)) (fuel : Nat)
    (hf : pages.length + 2 ≤ fuel) :
    streamConcat pages fuel = pages.flatten
      ∧ (streamRun (pagedFetch pages) false none fuel).2 = true := by
  obtain ⟨f, rfl⟩ : ∃ f, fuel = f + 1 := ⟨fuel - 1, by omega⟩
  unfold streamConcat
  rw [streamRun_false_succ]
  by_cases hlt : 0 < pages.length
  · have hfetch : pagedFetch pages none = ⟨pages.getD 0 [], 1⟩ := by
      simp [pagedFetch, hlt]
    rw [hfetch]
    have hne : ¬ ((none : Option Nat) = some 1) := by simp
    rw [if_neg hne, streamRun_paged_from pages 1 f hlt (by omega)]
    obtain ⟨p, rest, rfl⟩ : ∃ p rest, pages = p :: rest := by
      match pages, hlt with
      | p :: rest, _ => exact ⟨p, rest, rfl⟩
    simp [List.flatMap_append, flatMap_map_some_getD]
  · have h0 : pages = [] := List.length_eq_zero.mp (by omega)
    subst h0
    have hfetch : pagedFetch [] none = ⟨[], 0⟩ := by
      simp [pagedFetch]
    rw [hfetch]
    have hne : ¬ ((none : Option Nat) = some 0) := by simp
    rw [if_neg hne, streamRun_paged_from [] 0 f (by simp) (by omega)]
    simp

/-- C4: for `n ≤ 10000`, `head(n)` over a stream holding `evs`, however
the backend splits `evs` into pages, succeeds with the first `n` events:
exactly `min n evs.length` events, and an initial (oldest-first) segment
of the stream. -/
theorem c4_head_window (evs : List LogEvent) (split : List (List LogEvent))
    (n fuel : Nat) (hn : n ≤ 10000) (hs : split.flatten = evs)
    (hf : split.length + 2 ≤ fuel) :
    (LogStream.head split n fuel).1 = Except.ok (evs.take n)
      ∧ (evs.take n).length = min n evs.length
      ∧ evs.take n ++ evs.drop n = evs := by
  have hc := (streamConcat_paged split fuel hf).1
  rw [hs] at hc
  refine ⟨?_, List.length_take n evs, List.take_append_drop n evs⟩
  simp [LogStream.head, if_pos hn, hc]

/-- Witness for C4 on the spec's concrete page layout. -/
theorem c4_head_window_witness :
    (LogStream.head [[⟨"1", 1, 1⟩], [⟨"2", 2, 2⟩, ⟨"3", 3, 3⟩]] 2 4).1
        = Except.ok ([⟨"1", 1, 1⟩, ⟨"2", 2, 2⟩, ⟨"3", 3, 3⟩].take 2)
      ∧ (([⟨"1", 1, 1⟩, ⟨"2", 2, 2⟩, ⟨"3", 3, 3⟩] : List LogEvent).take 2).length
          = min 2 ([⟨"1", 1, 1⟩, ⟨"2", 2, 2⟩, ⟨"3", 3, 3⟩] : List LogEvent).length
      ∧ ([⟨"1", 1, 1⟩, ⟨"2", 2, 2⟩, ⟨"3", 3, 3⟩] : List LogEvent).take 2
            ++ ([⟨"1", 1, 1⟩, ⟨"2", 2, 2⟩, ⟨"3", 3, 3⟩] : List LogEvent).drop 2
          = [⟨"1", 1, 1⟩, ⟨"2", 2, 2⟩, ⟨"3", 3, 3⟩] :=
  c4_head_window [⟨"1", 1, 1⟩, ⟨"2", 2, 2⟩, ⟨"3", 3, 3⟩]
    [[⟨"1", 1, 1⟩], [⟨"2", 2, 2⟩, ⟨"3", 3, 3⟩]] 2 4
    (by decide) (by decide) (by decide)

theorem lastN_length {α : Type} (n : Nat) (l : List α) :
    (lastN n l).length = min n l.length := by
  simp only [lastN, List.length_drop]
  omega

/-- C2: for `n ≤ 10000`, `tail(n)` over a stream holding `evs`, however
the backend splits the backward window (the last `min n evs.length`
events, served in ascending order) into pages, succeeds with exactly the
last `min n evs.length` events, a final (most recent) segment of the
stream, in the stream's own ascending timestamp order. -/
theorem c2_tail_window (evs : List LogEvent) (split : List (List LogEvent))
    (n fuel : Nat) (hn : n ≤ 10000) (hs : split.flatten = lastN n evs)
    (hf : split.length + 2 ≤ fuel) :
    (LogStream.tail split n fuel).1 = Except.ok (lastN n evs)
      ∧ (lastN n evs).length = min n evs.length
      ∧ evs.take (evs.length - n) ++ lastN n evs = evs
      ∧ (evs.Pairwise (fun a b => a.timestamp ≤ b.timestamp) →
          (lastN n evs).Pairwise (fun a b => a.timestamp ≤ b.timestamp)) := by
  have hc := (streamConcat_paged split fuel hf).1
  rw [hs] at hc
  refine ⟨?_, lastN_length n evs, List.take_append_drop _ evs, fun hp => ?_⟩
  · have hlen : (lastN n evs).length ≤ n := by
      rw [lastN_length]; omega
    simp [LogStream.tail, if_pos hn, hc, List.take_of_length_le hlen]
  · exact hp.sublist (List.drop_sublist _ evs)

/-- Witness for C2 on the spec's concrete scenario: 15 events in three
backend pages of five, `tail(7)` returns events 9 through 15 in order,
spanning the page-2/page-3 boundary. -/
theorem c2_tail_window_witness :
    (LogStream.tail tail7Pages 7 5).1 = Except.ok (lastN 7 evs15)
      ∧ (lastN 7 evs15).length = min 7 evs15.length
      ∧ evs15.take (evs15.length - 7) ++ lastN 7 evs15 = evs15
      ∧ (evs15.Pairwise (fun a b => a.timestamp ≤ b.timestamp) →
          (lastN 7 evs15).Pairwise (fun a b => a.timestamp ≤ b.timestamp)) :=
  c2_tail_window evs15 tail7Pages 7 5 (by decide) (by decide) (by decide)

/-- C7: `head(n)` and `tail(n)` with `n > 10000` fail on the assertion
`n <= 10_000` and perform zero backend fetches. -/
theorem c7_validation (pages : List (List LogEvent)) (n fuel : Nat)
    (h : 10000 < n) :
    LogStream.head pages n fuel = (Except.error (), 0)
      ∧ LogStream.tail pages n fuel = (Except.error (), 0) := by
  have hn : ¬ n ≤ 10000 := by omega
  exact ⟨by simp [LogStream.head, if_neg hn], by simp [LogStream.tail, if_neg hn]⟩

/-- Witness for C7 at `n = 10001`. -/
theorem c7_validation_witness :
    LogStream.head [[⟨"1", 1, 1⟩]] 10001 5 = (Except.error (), 0)
      ∧ LogStream.tail [[⟨"1", 1, 1⟩]] 10001 5 = (Except.error (), 0) :=
  c7_validation [[⟨"1", 1, 1⟩]] 10001 5 (by decide)

theorem lookupGroup_addToGroups {α : Type} (gs : List (String × List α))
    (k g : String) (v : α) :
    lookupGroup (addToGroups gs k v) g
      = if k = g then lookupGroup gs g ++ [v] else lookupGroup gs g := by
  induction gs with
  | nil =>
    by_cases h : k = g
    · simp [addToGroups, lookupGroup, h]
    · simp [addToGroups, lookupGroup, h]
  | cons p rest ih =>
    obtain ⟨k2, vs⟩ := p
    by_cases hk : k2 = k
    · subst hk
      by_cases hg : k2 = g
      · simp [addToGroups, lookupGroup, hg]
      · simp [addToGroups, lookupGroup, hg]
    · by_cases hg : k2 = g
      · have hkg : ¬ k = g := fun h2 => hk (hg.trans h2.symm)
        have hgk : ¬ g = k := fun h2 => hkg h2.symm
        simp [addToGroups, lookupGroup, hk, hg, hkg, hgk]
      · simp [addToGroups, lookupGroup, hk, hg, ih]

theorem lookupGroup_foldl {α : Type} (l : List (String × α))
    (acc : List (String × List α)) (g : String) :
    lookupGroup (l.foldl (fun gs p => addToGroups gs p.1 p.2) acc) g
      = lookupGroup acc g ++ (l.filter fun p => p.1 = g).map (fun p => p.2) := by
  induction l generalizing acc with
  | nil => simp
  | cons p l ih =>
    rw [List.foldl_cons, ih, lookupGroup_addToGroups]
    by_cases h : p.1 = g
    · simp [h, List.filter_cons]
    · simp [h, List.filter_cons]

theorem lookupGroup_groupPairs {α : Type} (l : List (String × α)) (g : String) :
    lookupGroup (groupPairs l) g
      = (l.filter fun p => p.1 = g).map (fun p => p.2) := by
  simpa [lookupGroup] using lookupGroup_foldl l [] g

theorem flatMap_filterMap_flatten {α β : Type} (pages : List (List α))
    (f : α → Option β) :
    (pages.flatMap fun page => page.filterMap f) = pages.flatten.filterMap f := by
  induction pages with
  | nil => rfl
  | cons page rest ih =>
    simp [List.filterMap_append, ih]

theorem iter_match_map_pairs (rex : RE) (pages : List (List LogFilterEvent)) :
    (iter_match rex pages).map
        (fun me => (me.2.stream_name, String.mk me.1.consumed))
      = pages.flatten.filterMap fun e =>
          (reMatch rex e.message).map fun m =>
            (e.stream_name, String.mk m.consumed) := by
  unfold iter_match
  simp only [List.map_flatMap, List.map_filterMap, Option.map_map]
  rw [← flatMap_filterMap_flatten]
  apply List.flatMap_congr
  intro page _
  have hfun : (fun e => Option.map
        ((fun me : MRes × LogFilterEvent =>
            (me.2.stream_name, String.mk me.1.consumed)) ∘ fun m => (m, e))
        (reMatch rex e.message))
      = (fun e => (reMatch rex e.message).map fun m =>
          (e.stream_name, String.mk m.consumed)) := by
    funext e
    cases reMatch rex e.message <;> rfl
  rw [hfun]

theorem match_filter_aux (rex : RE) (l : List LogFilterEvent) (g : String) :
    ((l.filterMap fun e =>
        (reMatch rex e.message).map fun m =>
          (e.stream_name, String.mk m.consumed)).filter
          fun p => p.1 = g).map (fun p => p.2)
      = (l.filter fun e =>
            e.stream_name = g && (reMatch rex e.message).isSome).map
          fun e =>
            ((reMatch rex e.message).map fun m => String.mk m.consumed).getD "" := by
  induction l with
  | nil => rfl
  | cons e l ih =>
    cases hm : reMatch rex e.message with
    | none => simp [List.filterMap_cons, List.filter_cons, hm, ih]
    | some m =>
      by_cases hg : e.stream_name = g
      · simp [List.filterMap_cons, List.filter_cons, hm, hg, ih]
      · simp [List.filterMap_cons, List.filter_cons, hm, hg, ih]

/-- C3 (amended): `match(pattern, regex)` keeps exactly the events whose
message has an anchored match of the regex at position zero, and for
each kept event the value stored in its stream's bucket is the text of
the whole match (`match.group(0)`), regardless of capture groups. -/
theorem c3_match_stores_whole_match (rex : RE)
    (pages : List (List LogFilterEvent)) (g : String) :
    lookupGroup (matchGroups rex pages) g
      = (pages.flatten.filter fun e =>
            e.stream_name = g && (reMatch rex e.message).isSome).map
          fun e =>
            ((reMatch rex e.message).map fun m => String.mk m.consumed).getD "" := by
  unfold matchGroups
  rw [lookupGroup_groupPairs, iter_match_map_pairs, match_filter_aux]

/-- C3 counterexample: on the Text Source `"ab"` with regex `a(b)` the
code stores the whole match `"ab"`, while the claim's value — the text
of the first capture group, the regex having an explicit group — is
`"b"`. -/
theorem c3_counterexample :
    matchGroups rab (TextFilter.iter_log_events "ab") = [("", ["ab"])]
      ∧ c3ClaimedValue rab "ab" = some "b"
      ∧ ("ab" : String) ≠ "b" := by
  refine ⟨by decide, by decide, by decide⟩

theorem scanFirstMs_nil (r : RE) :
    scanFirstMs r [] = (mlist r []).head? := by
  have hf : (fun p => (mlist r (([] : List Char).drop p)).head?)
      = fun _ => (mlist r ([] : List Char)).head? := by
    funext p
    rw [List.drop_nil]
  unfold scanFirstMs
  rw [hf]
  cases (mlist r ([] : List Char)).head? <;> rfl

theorem scanFirstMs_cons (r : RE) (c : Char) (s2 : List Char) :
    scanFirstMs r (c :: s2)
      = match (mlist r (c :: s2)).head? with
        | some m => some m
        | none => scanFirstMs r s2 := by
  unfold scanFirstMs
  rw [show (c :: s2).length + 1 = (s2.length + 1) + 1 from rfl,
    List.range_succ_eq_map, List.filterMap_cons]
  cases hm : (mlist r ((c :: s2).drop 0)).head? with
  | some m =>
    rw [List.drop_zero] at hm
    simp [hm]
  | none =>
    rw [List.drop_zero] at hm
    simp only [hm, List.filterMap_map]
    rfl

theorem findallGo_head (r : RE) (fuel : Nat) (s : List Char)
    (h : s.length < fuel) :
    (findallGo r fuel s).head? = scanFirstMs r s := by
  induction fuel generalizing s with
  | zero => omega
  | succ fuel ih =>
    cases hm : (mlist r s).head? with
    | some m =>
      cases s with
      | nil => simp [findallGo, hm, scanFirstMs_nil]
      | cons c s2 => simp [findallGo, hm, scanFirstMs_cons]
    | none =>
      cases s with
      | nil => simp [findallGo, hm, scanFirstMs_nil]
      | cons c s2 =>
        have h2 : s2.length < fuel := by
          simp only [List.length_cons] at h
          omega
        simp [findallGo, hm, scanFirstMs_cons, ih s2 h2]

theorem findallMs_head (r : RE) (s : List Char) :
    (findallMs r s).head? = scanFirstMs r s :=
  findallGo_head r (s.length + 1) s (by omega)

theorem findallMs_eq_nil_iff (r : RE) (s : List Char) :
    findallMs r s = [] ↔ scanFirstMs r s = none := by
  rw [← findallMs_head]
  exact List.head?_eq_none_iff.symm

theorem reFindall_head (rex : RE) (s : String) :
    (reFindall rex s).head? = (scanFirstMs rex s.data).map (findallVal rex) := by
  rw [reFindall, List.head?_map, findallMs_head]

theorem iter_find_map_pairs (rex : RE) (pages : List (List LogFilterEvent)) :
    (iter_find rex pages).map
        (fun re2 => (re2.2.stream_name, re2.1.headD (.str "")))
      = pages.flatten.filterMap fun e =>
          (reFindall rex e.message).head?.map fun v => (e.stream_name, v) := by
  unfold iter_find
  simp only [List.map_flatMap, List.map_filterMap]
  rw [← flatMap_filterMap_flatten]
  apply List.flatMap_congr
  intro page _
  have hfun : (fun e => Option.map
        (fun re2 : List PyFindVal × LogFilterEvent =>
          (re2.2.stream_name, re2.1.headD (.str "")))
        (match reFindall rex e.message with
         | [] => none
         | v :: vs => some (v :: vs, e)))
      = (fun e => (reFindall rex e.message).head?.map fun v =>
          (e.stream_name, v)) := by
    funext e
    cases reFindall rex e.message <;> rfl
  rw [hfun]

theorem find_filter_aux (rex : RE) (l : List LogFilterEvent) (g : String) :
    ((l.filterMap fun e =>
        (reFindall rex e.message).head?.map fun v => (e.stream_name, v)).filter
          fun p => p.1 = g).map (fun p => p.2)
      = (l.filter fun e =>
            e.stream_name = g && (scanFirstMs rex e.message.data).isSome).map
          fun e =>
            ((scanFirstMs rex e.message.data).map (findallVal rex)).getD
              (.str "") := by
  induction l with
  | nil => rfl
  | cons e l ih =>
    simp only [reFindall_head, Option.map_map] at ih ⊢
    cases hm : scanFirstMs rex e.message.data with
    | none =>
      simp [List.filterMap_cons, List.filter_cons, hm, ih]
    | some m =>
      by_cases hg : e.stream_name = g
      · simp [List.filterMap_cons, List.filter_cons, hm, hg, ih]
      · simp [List.filterMap_cons, List.filter_cons, hm, hg, ih]

/-- C9: `find(pattern, regex)` keeps exactly the events whose message
has at least one occurrence of the regex under the unanchored scan, and
for each kept event the value stored in its stream's bucket is the
`findall` result of the first occurrence the scan finds (`results[0]`). -/
theorem c9_find_stores_first_occurrence (rex : RE)
    (pages : List (List LogFilterEvent)) (g : String) :
    lookupGroup (findGroups rex pages) g
      = (pages.flatten.filter fun e =>
            e.stream_name = g && (scanFirstMs rex e.message.data).isSome).map
          fun e =>
            ((scanFirstMs rex e.message.data).map (findallVal rex)).getD
              (.str "") := by
  unfold findGroups
  rw [lookupGroup_groupPairs, iter_find_map_pairs, find_filter_aux]

/-- C5 (amended): the Text Source emits exactly one page with one event
per line, in line order, whose `message` is the line, whose `timestamp`
and `ingestion_time` are the zero-based line ordinal as an integer,
whose `event_id` is that ordinal as text, and whose `stream_name` is
empty. -/
theorem c5_text_source_page (text : String) (i : Nat)
    (h : i < (pySplitlines text).length) :
    (TextFilter.iter_log_events text).length = 1
      ∧ ((TextFilter.iter_log_events text).headD []).length
          = (pySplitlines text).length
      ∧ ((TextFilter.iter_log_events text).headD []).getD i dummyEvent
          = ⟨(pySplitlines text).getD i "", .int i, .int i, "",
              .str (toString i)⟩ := by
  refine ⟨rfl, ?_, ?_⟩
  · show ((pySplitlines text).enum.map _).length = _
    rw [List.length_map, List.enum_length]
  · have hl : i < ((pySplitlines text).enum.map (fun p =>
        (⟨p.2, .int p.1, .int p.1, "", .str (toString p.1)⟩
          : LogFilterEvent))).length := by
      rw [List.length_map, List.enum_length]
      exact h
    show ((pySplitlines text).enum.map _).getD i dummyEvent = _
    rw [List.getD_eq_getElem _ _ hl, List.getElem_map, List.getElem_enum,
      List.getD_eq_getElem _ _ h]

/-- Witness for C5's amended statement at `"a\nb\nc"`, line 1. -/
theorem c5_text_source_page_witness :
    (TextFilter.iter_log_events "a\nb\nc").length = 1
      ∧ ((TextFilter.iter_log_events "a\nb\nc").headD []).length
          = (pySplitlines "a\nb\nc").length
      ∧ ((TextFilter.iter_log_events "a\nb\nc").headD []).getD 1 dummyEvent
          = ⟨(pySplitlines "a\nb\nc").getD 1 "", .int 1, .int 1, "",
              .str (toString 1)⟩ :=
  c5_text_source_page "a\nb\nc" 1 (by decide)

/-- C5 counterexample: on the text `"a\nb"` the first event's
`timestamp` is the integer `0`, not the text `"0"` the claim requires
(and its `event_id` is the text `"0"`, not the integer `0`). -/
theorem c5_counterexample :
    TextFilter.iter_log_events "a\nb"
        = [[⟨"a", .int 0, .int 0, "", .str "0"⟩,
            ⟨"b", .int 1, .int 1, "", .str "1"⟩]]
      ∧ (PyVal.int 0 ≠ PyVal.str "0")
      ∧ (PyVal.str "0" ≠ PyVal.int 0) := by
  refine ⟨by decide, by decide, by decide⟩

theorem matchCheckedGo_error (pages : List (List LogFilterEvent))
    (fetched : Nat) (acc : List (String × String)) :
    matchCheckedGo (Except.error ()) pages fetched acc
      = match firstNonEmptyIdx pages with
        | none => Except.ok (groupPairs acc)
        | some k => Except.error (fetched + k + 1) := by
  induction pages generalizing fetched with
  | nil => rfl
  | cons page rest ih =>
    cases page with
    | nil =>
      show matchCheckedGo (Except.error ()) rest (fetched + 1) acc = _
      rw [ih]
      cases hr : firstNonEmptyIdx rest with
      | none => simp [firstNonEmptyIdx, hr]
      | some k =>
        have harith : fetched + 1 + k + 1 = fetched + (k + 1) + 1 := by omega
        simp [firstNonEmptyIdx, hr, harith]
    | cons e es =>
      show Except.error (fetched + 1) = _
      simp [firstNonEmptyIdx]

theorem findCheckedGo_error (pages : List (List LogFilterEvent))
    (fetched : Nat) (acc : List (String × PyFindVal)) :
    findCheckedGo (Except.error ()) pages fetched acc
      = match firstNonEmptyIdx pages with
        | none => Except.ok (groupPairs acc)
        | some k => Except.error (fetched + k + 1) := by
  induction pages generalizing fetched with
  | nil => rfl
  | cons page rest ih =>
    cases page with
    | nil =>
      show findCheckedGo (Except.error ()) rest (fetched + 1) acc = _
      rw [ih]
      cases hr : firstNonEmptyIdx rest with
      | none => simp [firstNonEmptyIdx, hr]
      | some k =>
        have harith : fetched + 1 + k + 1 = fetched + (k + 1) + 1 := by omega
        simp [firstNonEmptyIdx, hr, harith]
    | cons e es =>
      show Except.error (fetched + 1) = _
      simp [firstNonEmptyIdx]

theorem matchCheckedGo_ok (rex : RE) (pages : List (List LogFilterEvent))
    (fetched : Nat) (acc : List (String × String)) :
    matchCheckedGo (Except.ok rex) pages fetched acc
      = Except.ok (groupPairs (acc ++ pages.flatMap (matchPagePairs rex))) := by
  induction pages generalizing acc fetched with
  | nil => simp [matchCheckedGo]
  | cons page rest ih =>
    cases page with
    | nil =>
      show matchCheckedGo (Except.ok rex) rest (fetched + 1) acc = _
      rw [ih]
      simp [matchPagePairs]
    | cons e es =>
      show matchCheckedGo (Except.ok rex) rest (fetched + 1)
          (acc ++ matchPagePairs rex (e :: es)) = _
      rw [ih]
      simp [List.append_assoc]

theorem findCheckedGo_ok (rex : RE) (pages : List (List LogFilterEvent))
    (fetched : Nat) (acc : List (String × PyFindVal)) :
    findCheckedGo (Except.ok rex) pages fetched acc
      = Except.ok (groupPairs (acc ++ pages.flatMap (findPagePairs rex))) := by
  induction pages generalizing acc fetched with
  | nil => simp [findCheckedGo]
  | cons page rest ih =>
    cases page with
    | nil =>
      show findCheckedGo (Except.ok rex) rest (fetched + 1) acc = _
      rw [ih]
      simp [findPagePairs]
    | cons e es =>
      show findCheckedGo (Except.ok rex) rest (fetched + 1)
          (acc ++ findPagePairs rex (e :: es)) = _
      rw [ih]
      simp [List.append_assoc]

theorem matchChecked_ok (rex : RE) (pages : List (List LogFilterEvent)) :
    matchChecked (Except.ok rex) pages = Except.ok (matchGroups rex pages) := by
  rw [matchChecked, matchCheckedGo_ok]
  unfold matchGroups
  rw [iter_match_map_pairs]
  have h : pages.flatMap (matchPagePairs rex)
      = pages.flatten.filterMap fun e =>
          (reMatch rex e.message).map fun m =>
            (e.stream_name, String.mk m.consumed) := by
    rw [← flatMap_filterMap_flatten]
    rfl
  rw [List.nil_append, h]

theorem findChecked_ok (rex : RE) (pages : List (List LogFilterEvent)) :
    findChecked (Except.ok rex) pages = Except.ok (findGroups rex pages) := by
  rw [findChecked, findCheckedGo_ok]
  unfold findGroups
  rw [iter_find_map_pairs]
  have h : pages.flatMap (findPagePairs rex)
      = pages.flatten.filterMap fun e =>
          (reFindall rex e.message).head?.map fun v => (e.stream_name, v) := by
    rw [← flatMap_filterMap_flatten]
    rfl
  rw [List.nil_append, h]

/-- C6 (amended): an invalid regex handed to `match`/`find` does not
fail before iteration: the regex is compiled inside `re.match` /
`re.findall`, at the first event examined, so the call fails after the
first non-empty page has been fetched (having fetched `k + 1` pages
when page `k` is the first non-empty one) — and when the iteration
yields no event at all, no error is raised and the empty grouping is
returned.  A valid regex runs the operation normally. -/
theorem c6_regex_compiled_lazily (pages : List (List LogFilterEvent))
    (rex : RE) :
    (matchChecked (Except.error ()) pages
        = match firstNonEmptyIdx pages with
          | none => Except.ok []
          | some k => Except.error (k + 1))
      ∧ (findChecked (Except.error ()) pages
          = match firstNonEmptyIdx pages with
            | none => Except.ok []
            | some k => Except.error (k + 1))
      ∧ matchChecked (Except.ok rex) pages = Except.ok (matchGroups rex pages)
      ∧ findChecked (Except.ok rex) pages = Except.ok (findGroups rex pages) := by
  refine ⟨?_, ?_, matchChecked_ok rex pages, findChecked_ok rex pages⟩
  · rw [matchChecked, matchCheckedGo_error]
    cases firstNonEmptyIdx pages <;> simp [groupPairs]
  · rw [findChecked, findCheckedGo_error]
    cases firstNonEmptyIdx pages <;> simp [groupPairs]

/-- C6 counterexample: over the Text Source `"a"` an invalid regex
fails only after one page has been fetched (`1 ≠ 0` pages), and over an
event-free source it does not fail at all — against the claim that the
failure precedes any fetch. -/
theorem c6_counterexample :
    matchChecked (Except.error ()) (TextFilter.iter_log_events "a")
        = Except.error 1
      ∧ (1 : Nat) ≠ 0
      ∧ matchChecked (Except.error ()) [] = Except.ok [] := by
  refine ⟨rfl, by decide, rfl⟩

/-- C8: a Filter Source built with both a non-empty stream-name set and
a non-empty prefix fails the selector assertion when iterated (the
`prefix is None` conjunct is false, so the whole assertion is false) and
performs no fetch. -/
theorem c8_both_selectors_rejected (fetch : List (String × Arg) → FilterResp)
    (group pat : String) (l : List String) (p : String) (limit : Option Nat)
    (fuel : Nat) (hl : l ≠ []) (hp : p ≠ "") :
    LogStreamFilter.iter_log_events fetch group (some l) (some p) pat limit fuel
      = (Except.error (), 0) := by
  have hc : selectorCheck (some l) (some p) = false := rfl
  simp [LogStreamFilter.iter_log_events, hc]

/-- Witness for C8 with stream names `["s1"]` and prefix `"str-"`. -/
theorem c8_both_selectors_rejected_witness :
    LogStreamFilter.iter_log_events (fun _ => ⟨[], none⟩) "g" (some ["s1"])
        (some "str-") "pat" none 3 = (Except.error (), 0) :=
  c8_both_selectors_rejected (fun _ => ⟨[], none⟩) "g" "pat" ["s1"] "str-"
    none 3 (by decide) (by decide)

theorem filterLoop_count_pos (fetch : Option String → FilterResp)
    (t : Option String) (fuel : Nat) (h : 1 ≤ fuel) :
    1 ≤ (filterLoop fetch t fuel).2.2 := by
  obtain ⟨f, rfl⟩ : ∃ f, fuel = f + 1 := ⟨fuel - 1, by omega⟩
  rw [filterLoop_succ]
  by_cases hc : pyFalsy (fetch t).nextToken <;> simp [hc]

/-- C10: with neither stream names nor prefix supplied the selector
assertion passes (`stream_names is None` short-circuits it), a fetch is
issued, and the request of the first fetch carries exactly
`logGroupName` and `filterPattern`: the two scoping parameters — and
every other unset optional parameter (`limit`, `nextToken`) — are
omitted by `ignore_nones` rather than sent as null. -/
theorem c10_neither_selector_omitted (fetch : List (String × Arg) → FilterResp)
    (group pat : String) (fuel : Nat) (hf : 1 ≤ fuel) :
    (LogStreamFilter.iter_log_events fetch group none none pat none fuel).1
        = Except.ok
            ((filterLoop (fun tok =>
                fetch (filterCallKwargs group none none pat none tok))
                none fuel).1,
              (filterLoop (fun tok =>
                fetch (filterCallKwargs group none none pat none tok))
                none fuel).2.1)
      ∧ 1 ≤ (LogStreamFilter.iter_log_events fetch group none none pat
              none fuel).2
      ∧ filterCallKwargs group none none pat none none
          = [("logGroupName", .s group), ("filterPattern", .s pat)]
      ∧ (filterCallKwargs group none none pat none none).map Prod.fst
          = ["logGroupName", "filterPattern"] := by
  refine ⟨rfl, ?_, rfl, rfl⟩
  show 1 ≤ (filterLoop (fun tok =>
      fetch (filterCallKwargs group none none pat none tok)) none fuel).2.2
  exact filterLoop_count_pos _ none fuel hf

/-- Witness for C10 with a one-page backend and fuel 1. -/
theorem c10_neither_selector_omitted_witness :
    (LogStreamFilter.iter_log_events (fun _ => ⟨[], none⟩) "g" none none "p"
          none 1).1
        = Except.ok
            ((filterLoop (fun tok =>
                (fun _ => (⟨[], none⟩ : FilterResp))
                  (filterCallKwargs "g" none none "p" none tok)) none 1).1,
              (filterLoop (fun tok =>
                (fun _ => (⟨[], none⟩ : FilterResp))
                  (filterCallKwargs "g" none none "p" none tok)) none 1).2.1)
      ∧ 1 ≤ (LogStreamFilter.iter_log_events (fun _ => ⟨[], none⟩) "g" none
              none "p" none 1).2
      ∧ filterCallKwargs "g" none none "p" none none
          = [("logGroupName", .s "g"), ("filterPattern", .s "p")]
      ∧ (filterCallKwargs "g" none none "p" none none).map Prod.fst
          = ["logGroupName", "filterPattern"] :=
  c10_neither_selector_omitted (fun _ => ⟨[], none⟩) "g" "p" 1 (by decide)

end SageInspector
